import Mathlib

/-!
Verification development for the jobs-scraper repository.

The Go sources are shallowly embedded: each pure computation becomes a Lean
function, the retry loop becomes a fuel-indexed recursion over an oracle of
attempt outcomes, and the goroutine/channel worker pool becomes a small-step
transition system.  Machine integers (int64) are modelled as Int with the
explicit clamping that strconv.ParseInt performs; durations are modelled in
milliseconds as Nat.
-/

namespace JobsScraper

/-- Errors a single attempt of the retry loop can store in lastErr: either the
error from client.Do, or the rate-limited error built for an HTTP 429. -/
inductive AttemptErr where
  /-- a network/connection failure from client.Do -/
  | netFailure (msg : String)
  /-- fmt.Errorf "rate limited: %d %s" -/
  | rateLimited (status : Nat)
deriving Repr, DecidableEq

/-- Error values returned by the Go code, mirroring the fmt.Errorf calls. -/
inductive GoError where
  /-- fmt.Errorf "request failed %d: %s" -/
  | requestFailed (status : Nat)
  /-- ctx.Err() returned when the context fires during the backoff select -/
  | ctxCanceled
  /-- fmt.Errorf "all retry attempts failed, last error: %w"; the wrapped
  lastErr is nil only if the loop body never ran -/
  | allRetriesFailed (last : Option AttemptErr)
  /-- fmt.Errorf "job ID not found in URL path: %s" -/
  | jobIDNotFound (url : String)
  /-- fmt.Errorf "invalid URL: %w" wrapping the url.Parse error (control
  character in the URL, or a malformed percent escape in the path) -/
  | invalidURL (url : String)
  /-- fmt.Errorf "error scraping page %d: %w" -/
  | pageError (page : Nat) (inner : GoError)
  /-- fmt.Errorf "job description not found" -/
  | descriptionNotFound
deriving Repr, DecidableEq

/-- RetryConfig from internal/utils/retryable-http-request.go (durations in ms). -/
structure RetryConfig where
  maxRetries : Nat
  baseDelay : Nat
  maxDelay : Nat
deriving Repr, DecidableEq

/-- Outcome of one attempt of client.Do: either a transport error or a response
with the given HTTP status code. -/
inductive Outcome where
  | netErr (msg : String)
  | response (status : Nat)
deriving Repr, DecidableEq

deriving instance DecidableEq for Except

/-- Observable result of one call of the retry loop: the returned value or
error, the list of completed backoff delays (ms), and the number of attempts
that were actually issued. -/
structure RunResult where
  result : Except GoError Nat
  delays : List Nat
  attempts : Nat
deriving Repr, DecidableEq

/-- The lastErr value the Go loop stores for a retryable outcome: a network
error keeps the client.Do error, a 429 response becomes the rate-limited
error.  (Only used on outcomes the loop retries.) -/
def lastErrOf (o : Outcome) : AttemptErr :=
  match o with
  | .netErr m => .netFailure m
  | .response s => .rateLimited s

/-- Classification of an outcome as retryable, returning the error the loop
would store: network failures and HTTP 429 are retryable, everything else is
not. -/
def retryableOutcome (o : Outcome) : Option AttemptErr :=
  match o with
  | .netErr m => some (.netFailure m)
  | .response s => if s = 429 then some (.rateLimited s) else none

/-- The body of the Go retry loop (both RetryableHTTPRequestImpl.RetryableHTTPRequest
and the standalone RetryableHTTPRequest share this shape; they differ only in
the retry bound and the delay formula, passed here as parameters).
`oracle i` is the outcome of attempt `i`; `cancel i` tells whether the context
fires during the backoff wait that follows attempt `i`.  `fuel` is the number
of loop iterations left, maintained as `maxRetries + 1 - attempt`. -/
def retryLoopAux (maxRetries : Nat) (delayFn : Nat → Nat) (oracle : Nat → Outcome)
    (cancel : Nat → Bool) : Nat → Nat → Option AttemptErr → List Nat → RunResult
  | attempt, 0, lastErr, delays =>
      ⟨.error (.allRetriesFailed lastErr), delays.reverse, attempt⟩
  | attempt, fuel + 1, _lastErr, delays =>
      match oracle attempt with
      | .response s =>
          if 200 ≤ s ∧ s < 300 then
            ⟨.ok s, delays.reverse, attempt + 1⟩
          else if s = 429 then
            if attempt < maxRetries then
              if cancel attempt then ⟨.error .ctxCanceled, delays.reverse, attempt + 1⟩
              else retryLoopAux maxRetries delayFn oracle cancel (attempt + 1) fuel
                     (some (.rateLimited s)) (delayFn attempt :: delays)
            else retryLoopAux maxRetries delayFn oracle cancel (attempt + 1) fuel
                   (some (.rateLimited s)) delays
          else ⟨.error (.requestFailed s), delays.reverse, attempt + 1⟩
      | .netErr m =>
          if attempt < maxRetries then
            if cancel attempt then ⟨.error .ctxCanceled, delays.reverse, attempt + 1⟩
            else retryLoopAux maxRetries delayFn oracle cancel (attempt + 1) fuel
                   (some (.netFailure m)) (delayFn attempt :: delays)
          else retryLoopAux maxRetries delayFn oracle cancel (attempt + 1) fuel
                 (some (.netFailure m)) delays

/-- RetryableHTTPRequestImpl.RetryableHTTPRequest (src/unnamed/part_002): the
loop bound is config.MaxRetries and the delay is the constant
`time.Second * 2`, i.e. 2000 ms, regardless of the config fields. -/
def retryableHTTPRequestImpl (cfg : RetryConfig) (oracle : Nat → Outcome)
    (cancel : Nat → Bool) : RunResult :=
  retryLoopAux cfg.maxRetries (fun _ => 2000) oracle cancel 0 (cfg.maxRetries + 1) none []

/-- Delay formula of the standalone RetryableHTTPRequest
(src/internal/utils/retryable-http-request.go):
`min(Duration(math.Pow(2, attempt)) * 1s, 30s)` in ms. -/
def standaloneDelay (attempt : Nat) : Nat :=
  min (2 ^ attempt * 1000) 30000

/-- The standalone RetryableHTTPRequest: hardcoded bound of 3 retries and the
exponential hardcoded delay; it takes no RetryConfig at all. -/
def retryableHTTPRequestStandalone (oracle : Nat → Outcome) (cancel : Nat → Bool) :
    RunResult :=
  retryLoopAux 3 standaloneDelay oracle cancel 0 4 none []

example :
    retryableHTTPRequestImpl ⟨3, 1000, 30000⟩ (fun _ => .response 404) (fun _ => false)
      = ⟨.error (.requestFailed 404), [], 1⟩ := by decide

example :
    retryableHTTPRequestImpl ⟨2, 1000, 30000⟩
        (fun i => if i < 2 then .response 429 else .response 200) (fun _ => false)
      = ⟨.ok 200, [2000, 2000], 3⟩ := by decide

example :
    retryableHTTPRequestStandalone (fun _ => .response 429) (fun _ => false)
      = ⟨.error (.allRetriesFailed (some (.rateLimited 429))),
         [1000, 2000, 4000], 4⟩ := by decide

/-- Every delay that a run of the shared retry loop completes is either one of
the delays already accumulated or a value of the delay function. -/
theorem retryLoop_delays_mem (maxRetries : Nat) (delayFn : Nat → Nat)
    (oracle : Nat → Outcome) (cancel : Nat → Bool) :
    ∀ fuel attempt lastErr delays x,
      x ∈ (retryLoopAux maxRetries delayFn oracle cancel attempt fuel lastErr delays).delays →
      x ∈ delays ∨ ∃ k, x = delayFn k := by
  intro fuel
  induction fuel with
  | zero =>
      intro attempt lastErr delays x hx
      simp only [retryLoopAux, List.mem_reverse] at hx
      exact Or.inl hx
  | succ fuel ih =>
      intro attempt lastErr delays x hx
      simp only [retryLoopAux] at hx
      cases ho : oracle attempt with
      | response s =>
          rw [ho] at hx
          dsimp only at hx
          by_cases h2xx : 200 ≤ s ∧ s < 300
          · rw [if_pos h2xx] at hx
            simp only [List.mem_reverse] at hx
            exact Or.inl hx
          · rw [if_neg h2xx] at hx
            by_cases h429 : s = 429
            · rw [if_pos h429] at hx
              by_cases hlt : attempt < maxRetries
              · rw [if_pos hlt] at hx
                by_cases hca : cancel attempt
                · rw [if_pos hca] at hx
                  simp only [List.mem_reverse] at hx
                  exact Or.inl hx
                · rw [if_neg hca] at hx
                  rcases ih _ _ _ _ hx with hmem | hk
                  · rcases List.mem_cons.mp hmem with hical | htl
                    · exact Or.inr ⟨attempt, hical⟩
                    · exact Or.inl htl
                  · exact Or.inr hk
              · rw [if_neg hlt] at hx
                exact ih _ _ _ _ hx
            · rw [if_neg h429] at hx
              simp only [List.mem_reverse] at hx
              exact Or.inl hx
      | netErr m =>
          rw [ho] at hx
          dsimp only at hx
          by_cases hlt : attempt < maxRetries
          · rw [if_pos hlt] at hx
            by_cases hca : cancel attempt
            · rw [if_pos hca] at hx
              simp only [List.mem_reverse] at hx
              exact Or.inl hx
            · rw [if_neg hca] at hx
              rcases ih _ _ _ _ hx with hmem | hk
              · rcases List.mem_cons.mp hmem with hical | htl
                · exact Or.inr ⟨attempt, hical⟩
                · exact Or.inl htl
              · exact Or.inr hk
          · rw [if_neg hlt] at hx
            exact ih _ _ _ _ hx

/-- A 2xx response makes the loop return the response at once. -/
theorem retryLoop_success_step (maxRetries : Nat) (delayFn : Nat → Nat)
    (oracle : Nat → Outcome) (cancel : Nat → Bool) (attempt fuel : Nat)
    (lastErr : Option AttemptErr) (delays : List Nat) (s : Nat)
    (ho : oracle attempt = .response s) (h1 : 200 ≤ s) (h2 : s < 300) :
    retryLoopAux maxRetries delayFn oracle cancel attempt (fuel + 1) lastErr delays =
      ⟨.ok s, delays.reverse, attempt + 1⟩ := by
  simp only [retryLoopAux, ho]
  rw [if_pos ⟨h1, h2⟩]

/-- A non-2xx response other than 429 makes the loop return an error at once. -/
theorem retryLoop_terminal_step (maxRetries : Nat) (delayFn : Nat → Nat)
    (oracle : Nat → Outcome) (cancel : Nat → Bool) (attempt fuel : Nat)
    (lastErr : Option AttemptErr) (delays : List Nat) (s : Nat)
    (ho : oracle attempt = .response s) (hno : ¬(200 ≤ s ∧ s < 300)) (h429 : s ≠ 429) :
    retryLoopAux maxRetries delayFn oracle cancel attempt (fuel + 1) lastErr delays =
      ⟨.error (.requestFailed s), delays.reverse, attempt + 1⟩ := by
  simp only [retryLoopAux, ho]
  rw [if_neg hno, if_neg h429]

/-- A retryable outcome with attempts remaining and no cancellation completes
one backoff delay and proceeds to the next attempt with lastErr updated. -/
theorem retryLoop_retryable_step (maxRetries : Nat) (delayFn : Nat → Nat)
    (oracle : Nat → Outcome) (cancel : Nat → Bool) (attempt fuel : Nat)
    (lastErr : Option AttemptErr) (delays : List Nat) (e : AttemptErr)
    (hro : retryableOutcome (oracle attempt) = some e) (hlt : attempt < maxRetries)
    (hca : cancel attempt = false) :
    retryLoopAux maxRetries delayFn oracle cancel attempt (fuel + 1) lastErr delays =
      retryLoopAux maxRetries delayFn oracle cancel (attempt + 1) fuel (some e)
        (delayFn attempt :: delays) := by
  cases ho : oracle attempt with
  | response s =>
      rw [ho] at hro
      simp only [retryableOutcome] at hro
      by_cases h429 : s = 429
      · subst h429
        rw [if_pos rfl] at hro
        have he := Option.some.inj hro
        subst he
        simp [retryLoopAux, ho, hlt, hca]
      · rw [if_neg h429] at hro
        exact absurd hro (by simp)
  | netErr m =>
      rw [ho] at hro
      simp only [retryableOutcome] at hro
      have he := Option.some.inj hro
      subst he
      simp [retryLoopAux, ho, hlt, hca]

/-- A retryable outcome with attempts remaining, when the context fires during
the backoff wait, returns ctx.Err() at once without completing the sleep. -/
theorem retryLoop_retryable_cancel_step (maxRetries : Nat) (delayFn : Nat → Nat)
    (oracle : Nat → Outcome) (cancel : Nat → Bool) (attempt fuel : Nat)
    (lastErr : Option AttemptErr) (delays : List Nat) (e : AttemptErr)
    (hro : retryableOutcome (oracle attempt) = some e) (hlt : attempt < maxRetries)
    (hca : cancel attempt = true) :
    retryLoopAux maxRetries delayFn oracle cancel attempt (fuel + 1) lastErr delays =
      ⟨.error .ctxCanceled, delays.reverse, attempt + 1⟩ := by
  cases ho : oracle attempt with
  | response s =>
      rw [ho] at hro
      simp only [retryableOutcome] at hro
      by_cases h429 : s = 429
      · subst h429
        simp [retryLoopAux, ho, hlt, hca]
      · rw [if_neg h429] at hro
        exact absurd hro (by simp)
  | netErr m =>
      simp [retryLoopAux, ho, hlt, hca]

/-- A retryable outcome on the final allowed attempt proceeds (without a
delay) to the loop exit, which produces the exhaustion error. -/
theorem retryLoop_retryable_last_step (maxRetries : Nat) (delayFn : Nat → Nat)
    (oracle : Nat → Outcome) (cancel : Nat → Bool) (attempt fuel : Nat)
    (lastErr : Option AttemptErr) (delays : List Nat) (e : AttemptErr)
    (hro : retryableOutcome (oracle attempt) = some e) (hnlt : ¬attempt < maxRetries) :
    retryLoopAux maxRetries delayFn oracle cancel attempt (fuel + 1) lastErr delays =
      retryLoopAux maxRetries delayFn oracle cancel (attempt + 1) fuel (some e) delays := by
  cases ho : oracle attempt with
  | response s =>
      rw [ho] at hro
      simp only [retryableOutcome] at hro
      by_cases h429 : s = 429
      · subst h429
        have he := Option.some.inj hro
        subst he
        simp [retryLoopAux, ho, hnlt]
      · rw [if_neg h429] at hro
        exact absurd hro (by simp)
  | netErr m =>
      rw [ho] at hro
      simp only [retryableOutcome] at hro
      have he := Option.some.inj hro
      subst he
      simp [retryLoopAux, ho, hnlt]

/-- A retryable outcome stores exactly the lastErr value of the Go loop. -/
theorem retryableOutcome_eq_lastErrOf (o : Outcome) (e : AttemptErr)
    (h : retryableOutcome o = some e) : e = lastErrOf o := by
  cases o with
  | netErr m => simpa [retryableOutcome, lastErrOf] using (Option.some.inj h).symm
  | response s =>
      simp only [retryableOutcome] at h
      by_cases h429 : s = 429
      · subst h429
        simpa [lastErrOf] using (Option.some.inj h).symm
      · rw [if_neg h429] at h
        exact absurd h (by simp)

/-- C1: every attempt of the retryable transport is classified into exactly
one of three cases: a 2xx response returns as success immediately; a network
failure or HTTP 429 schedules another attempt if attempts remain (completing a
backoff delay, or aborting on cancellation); any other non-2xx status returns
an error immediately, with no further attempts and no delays added — in
particular a constant-404 oracle yields a terminal error after one attempt and
an empty delay list. -/
theorem retry_outcome_classification (maxRetries : Nat) (delayFn : Nat → Nat)
    (oracle : Nat → Outcome) (cancel : Nat → Bool) (attempt fuel : Nat)
    (lastErr : Option AttemptErr) (delays : List Nat) :
    (∀ s, oracle attempt = .response s → 200 ≤ s → s < 300 →
      retryLoopAux maxRetries delayFn oracle cancel attempt (fuel + 1) lastErr delays =
        ⟨.ok s, delays.reverse, attempt + 1⟩) ∧
    (∀ s, oracle attempt = .response s → ¬(200 ≤ s ∧ s < 300) → s ≠ 429 →
      retryLoopAux maxRetries delayFn oracle cancel attempt (fuel + 1) lastErr delays =
        ⟨.error (.requestFailed s), delays.reverse, attempt + 1⟩) ∧
    (∀ e, retryableOutcome (oracle attempt) = some e → attempt < maxRetries →
        cancel attempt = false →
      retryLoopAux maxRetries delayFn oracle cancel attempt (fuel + 1) lastErr delays =
        retryLoopAux maxRetries delayFn oracle cancel (attempt + 1) fuel (some e)
          (delayFn attempt :: delays)) ∧
    (∀ e, retryableOutcome (oracle attempt) = some e → ¬attempt < maxRetries →
      retryLoopAux maxRetries delayFn oracle cancel attempt (fuel + 1) lastErr delays =
        retryLoopAux maxRetries delayFn oracle cancel (attempt + 1) fuel (some e) delays) ∧
    (∀ cfg : RetryConfig,
      retryableHTTPRequestImpl cfg (fun _ => .response 404) cancel =
        ⟨.error (.requestFailed 404), [], 1⟩) := by
  refine ⟨?_, ?_, ?_, ?_, ?_⟩
  · exact fun s ho h1 h2 =>
      retryLoop_success_step maxRetries delayFn oracle cancel attempt fuel lastErr delays s ho h1 h2
  · exact fun s ho hno h429 =>
      retryLoop_terminal_step maxRetries delayFn oracle cancel attempt fuel lastErr delays s ho hno h429
  · exact fun e hro hlt hca =>
      retryLoop_retryable_step maxRetries delayFn oracle cancel attempt fuel lastErr delays e hro hlt hca
  · exact fun e hro hnlt =>
      retryLoop_retryable_last_step maxRetries delayFn oracle cancel attempt fuel lastErr delays e hro hnlt
  · intro cfg
    exact retryLoop_terminal_step cfg.maxRetries (fun _ => 2000) (fun _ => .response 404)
      cancel 0 cfg.maxRetries none [] 404 rfl (by decide) (by decide)

/-- Witness for the classification theorem at concrete inputs. -/
theorem retry_outcome_classification_witness :
    retryLoopAux 3 (fun _ => 2000) (fun _ => .response 200) (fun _ => false) 0 4 none [] =
      ⟨.ok 200, [], 1⟩ ∧
    retryLoopAux 3 (fun _ => 2000) (fun _ => .response 404) (fun _ => false) 0 4 none [] =
      ⟨.error (.requestFailed 404), [], 1⟩ ∧
    retryLoopAux 3 (fun _ => 2000) (fun _ => .response 429) (fun _ => false) 0 4 none [] =
      retryLoopAux 3 (fun _ => 2000) (fun _ => .response 429) (fun _ => false) 1 3
        (some (.rateLimited 429)) [2000] ∧
    retryableHTTPRequestImpl ⟨3, 1000, 30000⟩ (fun _ => .response 404) (fun _ => false) =
      ⟨.error (.requestFailed 404), [], 1⟩ :=
  ⟨(retry_outcome_classification 3 (fun _ => 2000) (fun _ => .response 200) (fun _ => false)
      0 3 none []).1 200 rfl (by decide) (by decide),
   (retry_outcome_classification 3 (fun _ => 2000) (fun _ => .response 404) (fun _ => false)
      0 3 none []).2.1 404 rfl (by decide) (by decide),
   (retry_outcome_classification 3 (fun _ => 2000) (fun _ => .response 429) (fun _ => false)
      0 3 none []).2.2.1 (.rateLimited 429) (by decide) (by decide) rfl,
   (retry_outcome_classification 3 (fun _ => 2000) (fun _ => .response 429) (fun _ => false)
      0 3 none []).2.2.2.2 ⟨3, 1000, 30000⟩⟩

/-- Interrupting the backoff wait after attempt k returns ctx.Err() without
completing the remaining delays and without issuing further attempts. -/
theorem retryLoop_cancel_during_wait (maxRetries : Nat) (delayFn : Nat → Nat)
    (oracle : Nat → Outcome) (cancel : Nat → Bool) (k : Nat) (hk : k < maxRetries)
    (hretry : ∀ i, i ≤ k → (retryableOutcome (oracle i)).isSome)
    (hc : ∀ i, i < k → cancel i = false) (hck : cancel k = true) :
    ∀ fuel attempt lastErr delays, attempt + fuel = maxRetries + 1 → attempt ≤ k →
      retryLoopAux maxRetries delayFn oracle cancel attempt fuel lastErr delays =
        ⟨.error .ctxCanceled,
         delays.reverse ++ (List.range' attempt (k - attempt)).map delayFn, k + 1⟩ := by
  intro fuel
  induction fuel with
  | zero =>
      intro attempt lastErr delays hsum hak
      omega
  | succ fuel ih =>
      intro attempt lastErr delays hsum hak
      have hlt : attempt < maxRetries := lt_of_le_of_lt hak hk
      obtain ⟨e, he⟩ := Option.isSome_iff_exists.mp (hretry attempt hak)
      rcases Nat.lt_or_eq_of_le hak with hlt2 | heq
      · rw [retryLoop_retryable_step maxRetries delayFn oracle cancel attempt fuel lastErr
            delays e he hlt (hc attempt hlt2)]
        rw [ih (attempt + 1) (some e) (delayFn attempt :: delays) (by omega) hlt2]
        have hrange : k - attempt = (k - (attempt + 1)) + 1 := by omega
        rw [hrange, List.range'_succ]
        simp
      · subst heq
        rw [retryLoop_retryable_cancel_step maxRetries delayFn oracle cancel attempt fuel
            lastErr delays e he hlt hck]
        simp

/-- C8: if the cancellation token fires during the backoff wait that follows
attempt k (all earlier attempts being retryable and uncancelled), the
transport returns ctx.Err() with exactly k completed delays — the interrupted
sleep is never completed — and exactly k+1 attempts were issued, so no further
attempt is made.  The Go select on ctx.Done() is modelled as returning at the
cancellation point, which is what "within one scheduler tick" expresses. -/
theorem retry_cancel_aborts_backoff (cfg : RetryConfig) (oracle : Nat → Outcome)
    (cancel : Nat → Bool) (k : Nat) (hk : k < cfg.maxRetries)
    (hretry : ∀ i, i ≤ k → (retryableOutcome (oracle i)).isSome)
    (hc : ∀ i, i < k → cancel i = false) (hck : cancel k = true) :
    retryableHTTPRequestImpl cfg oracle cancel =
      ⟨.error .ctxCanceled, List.replicate k 2000, k + 1⟩ := by
  have h := retryLoop_cancel_during_wait cfg.maxRetries (fun _ => 2000) oracle cancel k hk
    hretry hc hck (cfg.maxRetries + 1) 0 none [] (by omega) (by omega)
  rw [retryableHTTPRequestImpl, h]
  simp [List.map_const']

/-- Witness for cancellation during the second backoff wait. -/
theorem retry_cancel_aborts_backoff_witness :
    retryableHTTPRequestImpl ⟨3, 1000, 30000⟩ (fun _ => .response 429)
        (fun i => decide (i = 1)) =
      ⟨.error .ctxCanceled, [2000], 2⟩ := by
  have h := retry_cancel_aborts_backoff ⟨3, 1000, 30000⟩ (fun _ => .response 429)
    (fun i => decide (i = 1)) 1 (by decide)
    (fun i _ => by simp [retryableOutcome])
    (fun i hi => by interval_cases i; decide) (by decide)
  simpa using h

/-- Running the loop on retryable outcomes only, without cancellation,
exhausts the attempts and returns the error wrapping the lastErr of the final
attempt. -/
theorem retryLoop_exhaustion (maxRetries : Nat) (delayFn : Nat → Nat)
    (oracle : Nat → Outcome) (cancel : Nat → Bool)
    (hretry : ∀ i, i ≤ maxRetries → (retryableOutcome (oracle i)).isSome)
    (hc : ∀ i, cancel i = false) :
    ∀ fuel attempt lastErr delays, attempt + (fuel + 1) = maxRetries + 1 →
      retryLoopAux maxRetries delayFn oracle cancel attempt (fuel + 1) lastErr delays =
        ⟨.error (.allRetriesFailed (some (lastErrOf (oracle maxRetries)))),
         delays.reverse ++ (List.range' attempt (maxRetries - attempt)).map delayFn,
         maxRetries + 1⟩ := by
  intro fuel
  induction fuel with
  | zero =>
      intro attempt lastErr delays hsum
      have ha : attempt = maxRetries := by omega
      obtain ⟨e, he⟩ := Option.isSome_iff_exists.mp (hretry attempt (by omega))
      rw [retryLoop_retryable_last_step maxRetries delayFn oracle cancel attempt 0 lastErr
          delays e he (by omega)]
      have he2 : e = lastErrOf (oracle maxRetries) := by
        rw [← ha]
        exact retryableOutcome_eq_lastErrOf (oracle attempt) e he
      simp [retryLoopAux, he2, ha]
  | succ fuel ih =>
      intro attempt lastErr delays hsum
      have hlt : attempt < maxRetries := by omega
      obtain ⟨e, he⟩ := Option.isSome_iff_exists.mp (hretry attempt (by omega))
      rw [retryLoop_retryable_step maxRetries delayFn oracle cancel attempt (fuel + 1) lastErr
          delays e he hlt (hc attempt)]
      rw [ih (attempt + 1) (some e) (delayFn attempt :: delays) (by omega)]
      have hrange : maxRetries - attempt = (maxRetries - (attempt + 1)) + 1 := by omega
      rw [hrange, List.range'_succ]
      simp

/-- C6 counterexample: exhausting the attempts with MaxRetries = 0 (one
attempt) and with MaxRetries = 2 (three attempts) returns the very same error
value, so the returned error does not record the number of attempts made. -/
theorem retry_exhaustion_error_counterexample :
    (retryableHTTPRequestImpl ⟨0, 1000, 30000⟩ (fun _ => .response 429)
        (fun _ => false)).result =
      (retryableHTTPRequestImpl ⟨2, 1000, 30000⟩ (fun _ => .response 429)
        (fun _ => false)).result ∧
    (retryableHTTPRequestImpl ⟨0, 1000, 30000⟩ (fun _ => .response 429)
        (fun _ => false)).attempts = 1 ∧
    (retryableHTTPRequestImpl ⟨2, 1000, 30000⟩ (fun _ => .response 429)
        (fun _ => false)).attempts = 3 := by decide

/-- C6 amended: exhausting the configured maximum attempts returns the
aggregated error "all retry attempts failed" wrapping the last underlying
cause; the attempt count is not part of the returned error (it appears only
in log output), although maxRetries + 1 attempts were indeed issued. -/
theorem retry_exhaustion_wraps_last_cause (cfg : RetryConfig) (oracle : Nat → Outcome)
    (cancel : Nat → Bool)
    (hretry : ∀ i, i ≤ cfg.maxRetries → (retryableOutcome (oracle i)).isSome)
    (hc : ∀ i, cancel i = false) :
    retryableHTTPRequestImpl cfg oracle cancel =
      ⟨.error (.allRetriesFailed (some (lastErrOf (oracle cfg.maxRetries)))),
       List.replicate cfg.maxRetries 2000, cfg.maxRetries + 1⟩ := by
  have h := retryLoop_exhaustion cfg.maxRetries (fun _ => 2000) oracle cancel hretry hc
    cfg.maxRetries 0 none [] (by omega)
  rw [retryableHTTPRequestImpl, h]
  simp [List.map_const']

/-- Witness for the exhaustion theorem at a concrete run. -/
theorem retry_exhaustion_wraps_last_cause_witness :
    retryableHTTPRequestImpl ⟨2, 1000, 30000⟩ (fun _ => .netErr "connection refused")
        (fun _ => false) =
      ⟨.error (.allRetriesFailed (some (.netFailure "connection refused"))),
       [2000, 2000], 3⟩ := by
  have h := retry_exhaustion_wraps_last_cause ⟨2, 1000, 30000⟩
    (fun _ => .netErr "connection refused") (fun _ => false)
    (fun i _ => by simp [retryableOutcome]) (fun _ => rfl)
  simpa [lastErrOf] using h

/-- C5 counterexample: with BaseDelay = 5000 ms and MaxDelay = 1000 ms the
completed backoff delay is 2000 ms — larger than the configured MaxDelay —
and changing BaseDelay/MaxDelay to 7000/9000 leaves the delay unchanged, so
the delay is not computed from (nor capped by) the configuration. -/
theorem backoff_ignores_config_counterexample :
    (retryableHTTPRequestImpl ⟨1, 5000, 1000⟩ (fun _ => .response 429)
        (fun _ => false)).delays = [2000] ∧
    1000 < 2000 ∧
    (retryableHTTPRequestImpl ⟨1, 7000, 9000⟩ (fun _ => .response 429)
        (fun _ => false)).delays = [2000] := by decide

/-- C5 amended: the backoff delay is hardcoded, not derived from the
RetryConfig: every delay RetryableHTTPRequestImpl.RetryableHTTPRequest
completes equals 2000 ms (time.Second * 2) whatever the configured BaseDelay
and MaxDelay, and every delay the standalone RetryableHTTPRequest completes
equals min(2^k * 1000, 30000) ms for some attempt index k. -/
theorem backoff_delay_hardcoded (cfg : RetryConfig) (oracle : Nat → Outcome)
    (cancel : Nat → Bool) (d : Nat)
    (hd : d ∈ (retryableHTTPRequestImpl cfg oracle cancel).delays) :
    d = 2000 ∧
    ∀ (oracle2 : Nat → Outcome) (cancel2 : Nat → Bool) (d2 : Nat),
      d2 ∈ (retryableHTTPRequestStandalone oracle2 cancel2).delays →
      ∃ k, d2 = min (2 ^ k * 1000) 30000 := by
  constructor
  · rcases retryLoop_delays_mem cfg.maxRetries (fun _ => 2000) oracle cancel
      (cfg.maxRetries + 1) 0 none [] d hd with hmem | ⟨k, hk⟩
    · exact absurd hmem (List.not_mem_nil d)
    · exact hk
  · intro oracle2 cancel2 d2 hd2
    rcases retryLoop_delays_mem 3 standaloneDelay oracle2 cancel2 4 0 none [] d2 hd2
      with hmem | ⟨k, hk⟩
    · exact absurd hmem (List.not_mem_nil d2)
    · exact ⟨k, hk⟩

/-- Witness for the hardcoded-delay theorem at a concrete run. -/
theorem backoff_delay_hardcoded_witness :
    2000 ∈ (retryableHTTPRequestImpl ⟨1, 5000, 1000⟩ (fun _ => .response 429)
        (fun _ => false)).delays ∧
    2000 = 2000 :=
  ⟨by decide,
   (backoff_delay_hardcoded ⟨1, 5000, 1000⟩ (fun _ => .response 429) (fun _ => false)
      2000 (by decide)).1⟩

/-- Job from internal/models/Job.go; ID is an int64, modelled as Int (the
values strconv.ParseInt produces are always within the int64 range). -/
structure Job where
  id : Int
  title : String
  company : String
  companyLink : String
  location : String
  jobLink : String
deriving Repr, DecidableEq

/-- SearchQuery from internal/models/Job.go. -/
structure SearchQuery where
  keywords : String
  location : String
  fwt : String
  geoId : String
deriving Repr, DecidableEq

/-- UTF-8 encoding of a single code point, byte values as Nat. -/
def utf8Bytes (c : Nat) : List Nat :=
  if c < 128 then [c]
  else if c < 2048 then [192 + c / 64, 128 + c % 64]
  else if c < 65536 then [224 + c / 4096, 128 + c / 64 % 64, 128 + c % 64]
  else [240 + c / 262144, 128 + c / 4096 % 64, 128 + c / 64 % 64, 128 + c % 64]

/-- The UTF-8 bytes of a string (Go strings are byte sequences). -/
def stringBytes (s : String) : List Nat :=
  (s.data.map (fun c => utf8Bytes c.toNat)).flatten

/-- Uppercase hexadecimal digit, as used by Go's percent-encoding. -/
def hexDigit (n : Nat) : Char :=
  (['0', '1', '2', '3', '4', '5', '6', '7', '8', '9',
    'A', 'B', 'C', 'D', 'E', 'F'].getD n '0')

/-- Go url.QueryEscape treatment of one byte: space becomes '+', unreserved
bytes (alphanumerics and - _ . ~) stay, anything else is %XX. -/
def escapeQueryByte (b : Nat) : List Char :=
  if b = 32 then ['+']
  else if (65 ≤ b ∧ b ≤ 90) ∨ (97 ≤ b ∧ b ≤ 122) ∨ (48 ≤ b ∧ b ≤ 57) ∨
      b = 45 ∨ b = 95 ∨ b = 46 ∨ b = 126 then
    [Char.ofNat b]
  else ['%', hexDigit (b / 16), hexDigit (b % 16)]

/-- Go url.QueryEscape. -/
def queryEscape (s : String) : String :=
  String.mk (((stringBytes s).map escapeQueryByte).flatten)

/-- Go url.Values.Set: replace the values of the key, or add the pair. -/
def urlValuesSet (m : List (String × String)) (k v : String) : List (String × String) :=
  if m.any (fun p => p.1 == k) then
    m.map (fun p => if p.1 == k then (k, v) else p)
  else m ++ [(k, v)]

/-- First value bound to a key in an association list (keys here are unique). -/
def lookupParam : List (String × String) → String → Option String
  | [], _ => none
  | p :: ps, k => if p.1 = k then some p.2 else lookupParam ps k

/-- Insertion into a key-sorted list of pairs. -/
def insertPairSorted (p : String × String) :
    List (String × String) → List (String × String)
  | [] => [p]
  | q :: qs => if p.1 ≤ q.1 then p :: q :: qs else q :: insertPairSorted p qs

/-- Sort pairs by key (Go url.Values.Encode iterates keys in sorted order). -/
def sortPairsByKey (m : List (String × String)) : List (String × String) :=
  m.foldr insertPairSorted []

/-- Join with the & separator. -/
def joinAmp : List String → String
  | [] => ""
  | [x] => x
  | x :: xs => x ++ "&" ++ joinAmp xs

/-- Go url.Values.Encode: keys in sorted order, key and value query-escaped. -/
def urlValuesEncode (m : List (String × String)) : String :=
  joinAmp ((sortPairsByKey m).map (fun p => queryEscape p.1 ++ "=" ++ queryEscape p.2))

/-- Scraper.buildSearchURL (src/unnamed/part_004 lines 169-189): the params
that are set, in order; keywords and location are pre-escaped by the code
itself (and escaped again by Encode), f_WT only when non-empty, and start is
strconv.Itoa(25 * page). -/
def buildSearchParams (query : SearchQuery) (page : Nat) : List (String × String) :=
  let params := urlValuesSet [] "keywords" (queryEscape query.keywords)
  let params := urlValuesSet params "location" (queryEscape query.location)
  let params := if query.fwt ≠ "" then urlValuesSet params "f_WT" query.fwt else params
  urlValuesSet params "start" (toString (25 * page))

/-- Scraper.buildSearchURL: base URL plus the encoded params. -/
def buildSearchURL (query : SearchQuery) (page : Nat) : String :=
  "https://www.linkedin.com/jobs-guest/jobs/api/seeMoreJobPostings/search?" ++
    urlValuesEncode (buildSearchParams query page)

/-- Strings.TrimSpace: drop leading and trailing whitespace. -/
def goTrimSpace (s : String) : String :=
  String.mk (((s.data.dropWhile Char.isWhitespace).reverse.dropWhile
    Char.isWhitespace).reverse)

/-- Scan for the first "://" and return what follows (the scheme separator
recognition inside url.Parse, for URLs that have an authority). -/
def dropToAuthority : List Char → Option (List Char)
  | [] => none
  | ':' :: '/' :: '/' :: rest => some rest
  | _ :: rest => dropToAuthority rest

/-- Hex digit recognition of Go's ishex (0-9, a-f, A-F). -/
def isHexChar (c : Char) : Bool :=
  ('0' ≤ c ∧ c ≤ '9') ∨ ('a' ≤ c ∧ c ≤ 'f') ∨ ('A' ≤ c ∧ c ≤ 'F')

/-- Hex digit value of Go's unhex. -/
def hexVal (c : Char) : Nat :=
  if '0' ≤ c ∧ c ≤ '9' then c.toNat - 48
  else if 'a' ≤ c ∧ c ≤ 'f' then c.toNat - 87
  else if 'A' ≤ c ∧ c ≤ 'F' then c.toNat - 55
  else 0

/-- url.Parse's stringContainsCTLByte check: an ASCII control byte anywhere in
the raw URL makes parsing fail. -/
def containsCTL (s : String) : Bool :=
  s.data.any (fun c => c.toNat < 32 ∨ c.toNat = 127)

/-- Go's unescape in encodePath mode: every % must be followed by two hex
digits and is decoded to the byte they denote (a decoded byte b is modelled as
the character with code point b, which agrees with Go byte-wise on everything
path.Base and the trailing-digits regexp inspect); a malformed escape is an
EscapeError.  Other characters, including '+', pass through unchanged. -/
def percentDecodePath : List Char → Option (List Char)
  | [] => some []
  | c :: rest =>
    if c = '%' then
      match rest with
      | c1 :: c2 :: rest2 =>
        if isHexChar c1 ∧ isHexChar c2 then
          match percentDecodePath rest2 with
          | none => none
          | some l => some (Char.ofNat (hexVal c1 * 16 + hexVal c2) :: l)
        else none
      | _ => none
    else
      match percentDecodePath rest with
      | none => none
      | some l => some (c :: l)

/-- Raw (still escaped) path component for the URLs the scraper handles: the
fragment and query are cut off; with a scheme://authority prefix the path
starts at the first '/' after the authority, otherwise the whole remainder is
the path. -/
def rawPathOf (u : String) : List Char :=
  let cs := (u.data.takeWhile (fun c => c ≠ '#')).takeWhile (fun c => c ≠ '?')
  match dropToAuthority cs with
  | none => cs
  | some rest => rest.dropWhile (fun c => c ≠ '/')

/-- url.Parse(...).Path for the URLs the scraper handles: error on a control
character in the URL, then the raw path percent-decoded, a malformed escape
being an error. -/
def goURLParse (u : String) : Except GoError String :=
  if containsCTL u then .error (.invalidURL u)
  else
    match percentDecodePath (rawPathOf u) with
    | none => .error (.invalidURL u)
    | some decoded => .ok (String.mk decoded)

/-- Go path.Base: "." for the empty path, trailing slashes stripped, then the
part after the last '/', or "/" if only slashes remain. -/
def goPathBase (p : String) : String :=
  if p = "" then "."
  else
    let cs := p.data.reverse.dropWhile (fun c => c = '/')
    if cs = [] then "/"
    else String.mk ((cs.takeWhile (fun c => c ≠ '/')).reverse)

/-- Match of the regexp (\d+)$: the maximal run of digits at the end. -/
def trailingDigits (s : String) : String :=
  String.mk ((s.data.reverse.takeWhile Char.isDigit).reverse)

/-- extractJobIDFromURL (src/unnamed/part_004 lines 314-333): a url.Parse
error is wrapped and returned; otherwise path.Base of the parsed path is
matched against the trailing-digits regexp. -/
def extractJobIDFromURL (jobURL : String) : Except GoError String :=
  match goURLParse jobURL with
  | .error e => .error e
  | .ok path =>
    let lastSegment := goPathBase path
    let m := trailingDigits lastSegment
    if m = "" then .error (.jobIDNotFound jobURL) else .ok m

/-- strconv.ParseInt(s, 10, 64) value: 0 on a syntax error (empty string,
sign only, or a non-digit), the parsed value clamped to the int64 range on a
range error.  The scraper ignores the error return and uses the value. -/
def goParseInt64 (s : String) : Int :=
  let core : Int → List Char → Int := fun sign ds =>
    if ds.isEmpty ∨ ds.any (fun c => !c.isDigit) then 0
    else
      let n : Nat := ds.foldl (fun a c => a * 10 + (c.toNat - 48)) 0
      if sign = 1 then
        if n ≤ 9223372036854775807 then (n : Int) else 9223372036854775807
      else
        if n ≤ 9223372036854775808 then -(n : Int) else -9223372036854775808
  match s.data with
  | [] => 0
  | '-' :: ds => core (-1) ds
  | '+' :: ds => core 1 ds
  | ds => core 1 ds

/-- One li > div.base-card block as the goquery selectors deliver it: the raw
texts and hrefs before trimming. -/
structure RawCard where
  title : String
  company : String
  companyLink : String
  location : String
  jobLink : String
deriving Repr, DecidableEq

/-- The per-card body of Scraper.ScrapeJobsWithContext (src/unnamed/part_004
lines 110-132): trim every field, derive the job ID from the link (any
extraction or parse error is only logged, leaving the ID at 0), and keep the
card iff title, company, location and link are non-empty. -/
def processCard (c : RawCard) : Option Job :=
  let title := goTrimSpace c.title
  let company := goTrimSpace c.company
  let companyLink := goTrimSpace c.companyLink
  let location := goTrimSpace c.location
  let jobLink := goTrimSpace c.jobLink
  let jobId := match extractJobIDFromURL jobLink with
    | .ok v => v
    | .error _ => ""
  let idInt := goParseInt64 jobId
  if title ≠ "" ∧ company ≠ "" ∧ location ≠ "" ∧ jobLink ≠ "" then
    some ⟨idInt, title, company, companyLink, location, jobLink⟩
  else none

/-- All cards of a page, in document order. -/
def processCards (cards : List RawCard) : List Job :=
  cards.filterMap processCard

/-- Result of one run of the streaming scan: the listing URLs requested in
order, the records emitted to the channel in order, and the error that aborted
the scan, if any. -/
structure ScanResult where
  requests : List String
  emitted : List Job
  failure : Option GoError
deriving Repr, DecidableEq

/-- Scraper.ScrapeJobsWithContext at page level: one listing request for the
page's search URL; on transport success the page's cards are processed.
`fetch page` is the transport outcome for that page. -/
def scrapeJobsWithContext (query : SearchQuery)
    (fetch : Nat → Except GoError (List RawCard)) (page : Nat) :
    String × Except GoError (List Job) :=
  (buildSearchURL query page,
   match fetch page with
   | .error e => .error e
   | .ok cards => .ok (processCards cards))

/-- The page loop of Scraper.ScrapeLinkedInJobsStreaming (src/unnamed/part_004
lines 62-85): pages are fetched strictly sequentially; a page error aborts the
scan with the wrapped error; each page's records are emitted before the next
page is fetched. -/
def scrapeStreamingAux (query : SearchQuery)
    (fetch : Nat → Except GoError (List RawCard)) : Nat → Nat → ScanResult
  | _, 0 => ⟨[], [], none⟩
  | page, rem + 1 =>
    match scrapeJobsWithContext query fetch page with
    | (url, .error e) => ⟨[url], [], some (.pageError page e)⟩
    | (url, .ok jobs) =>
        let rest := scrapeStreamingAux query fetch (page + 1) rem
        ⟨url :: rest.requests, jobs ++ rest.emitted, rest.failure⟩

/-- Scraper.ScrapeLinkedInJobsStreaming over numPages pages starting at 0. -/
def scrapeLinkedInJobsStreaming (query : SearchQuery)
    (fetch : Nat → Except GoError (List RawCard)) (numPages : Nat) : ScanResult :=
  scrapeStreamingAux query fetch 0 numPages

example : extractJobIDFromURL
    "https://www.linkedin.com/jobs/view/frontend-developer-12345" = .ok "12345" := by
  decide

example : extractJobIDFromURL
    "https://jp.linkedin.com/jobs/view/frontend-developer-12345?refId=abc" =
      .ok "12345" := by decide

example : (extractJobIDFromURL
    "https://www.linkedin.com/jobs/view/frontend-developer").isOk = false := by decide

example : extractJobIDFromURL
    "https://www.linkedin.com/jobs/view/x3%2F" = .ok "3" := by decide

example : extractJobIDFromURL "https://www.linkedin.com/jobs/view/x3%zz" =
    .error (.invalidURL "https://www.linkedin.com/jobs/view/x3%zz") := by decide

example : goParseInt64 "12345" = 12345 := by decide

example : goParseInt64 "" = 0 := by decide

/-- Page loop invariant: with every page in the window succeeding, the
requests are exactly the per-page search URLs in increasing page order and the
scan does not fail. -/
theorem scrapeStreamingAux_requests (query : SearchQuery)
    (fetch : Nat → Except GoError (List RawCard)) :
    ∀ rem page, (∀ i, page ≤ i → i < page + rem → (fetch i).isOk) →
      (scrapeStreamingAux query fetch page rem).requests =
        (List.range' page rem).map (buildSearchURL query) ∧
      (scrapeStreamingAux query fetch page rem).failure = none := by
  intro rem
  induction rem with
  | zero =>
      intro page _
      exact ⟨rfl, rfl⟩
  | succ rem ih =>
      intro page h
      have hp : (fetch page).isOk := h page le_rfl (by omega)
      cases hf : fetch page with
      | error e => rw [hf] at hp; simp [Except.isOk, Except.toBool] at hp
      | ok cards =>
          have := ih (page + 1) (fun i h1 h2 => h i (by omega) (by omega))
          simp only [scrapeStreamingAux, scrapeJobsWithContext, hf, List.range'_succ,
            List.map_cons]
          exact ⟨by rw [this.1], this.2⟩

/-- C2: for every page count and search query, with no transport failures the
scanner issues exactly numPages listing requests, one per page 0..numPages-1
in increasing order (the requests list is the in-order trace), and the request
for page i carries the start parameter strconv.Itoa(25 * i). -/
theorem scanner_sequential_pages (query : SearchQuery)
    (fetch : Nat → Except GoError (List RawCard)) (numPages : Nat)
    (h : ∀ i, i < numPages → (fetch i).isOk) :
    (scrapeLinkedInJobsStreaming query fetch numPages).requests =
      (List.range numPages).map (buildSearchURL query) ∧
    (scrapeLinkedInJobsStreaming query fetch numPages).failure = none ∧
    ∀ i, lookupParam (buildSearchParams query i) "start" = some (toString (25 * i)) := by
  have haux := scrapeStreamingAux_requests query fetch numPages 0
    (fun i _ h2 => h i (by omega))
  refine ⟨?_, haux.2, ?_⟩
  · rw [scrapeLinkedInJobsStreaming, haux.1, List.range_eq_range']
  · intro i
    by_cases hf : query.fwt = ""
    · simp +decide [buildSearchParams, urlValuesSet, lookupParam, hf]
    · simp +decide [buildSearchParams, urlValuesSet, lookupParam, hf]

/-- Witness for the scanner theorem on two pages with empty result pages. -/
theorem scanner_sequential_pages_witness :
    (scrapeLinkedInJobsStreaming ⟨"go", "jp", "", ""⟩ (fun _ => .ok []) 2).requests =
      (List.range 2).map (buildSearchURL ⟨"go", "jp", "", ""⟩) ∧
    (scrapeLinkedInJobsStreaming ⟨"go", "jp", "", ""⟩ (fun _ => .ok []) 2).failure = none ∧
    lookupParam (buildSearchParams ⟨"go", "jp", "", ""⟩ 1) "start" = some "25" :=
  ⟨(scanner_sequential_pages ⟨"go", "jp", "", ""⟩ (fun _ => .ok []) 2
      (fun _ _ => rfl)).1,
   (scanner_sequential_pages ⟨"go", "jp", "", ""⟩ (fun _ => .ok []) 2
      (fun _ _ => rfl)).2.1,
   (scanner_sequential_pages ⟨"go", "jp", "", ""⟩ (fun _ => .ok []) 2
      (fun _ _ => rfl)).2.2 1⟩

/-- JobDescription from the models package: owning job ID, free text, and the
criteria mapping (represented as the key/value pairs in insertion order). -/
structure JobDescription where
  jobID : Int
  description : String
  criteria : List (String × String)
deriving Repr, DecidableEq

/-- JobWithDescription: the pair a worker of GetJobDescription sends on the
output channel. -/
structure JobWithDescription where
  job : Job
  jobDescription : JobDescription
deriving Repr, DecidableEq

/-- JobDescriptionResult from internal/pipeline/job_pipeline.go: the result
value of the alternate worker, carrying an error field. -/
structure JobDescriptionResult where
  job : Job
  description : String
  criteria : List (String × String)
  error : Option GoError
deriving Repr, DecidableEq

/-- The loop body of one worker of GetJobDescription (src/unnamed/part_005
lines 37-60), run over the records the worker pulls, without cancellation:
`fetch` is ScrapeJobDescriptionWithContext.  On error the worker only logs and
moves on — nothing is emitted for the failed record; on success it emits the
enriched pair. -/
def getJobDescriptionWorker
    (fetch : Job → Except GoError (String × List (String × String))) :
    List Job → List JobWithDescription
  | [] => []
  | j :: rest =>
    match fetch j with
    | .error _ => getJobDescriptionWorker fetch rest
    | .ok (jd, jc) => ⟨j, ⟨j.id, jd, jc⟩⟩ :: getJobDescriptionWorker fetch rest

/-- The loop body of JobPipeline.jobDescriptionWorker
(internal/pipeline/job_pipeline.go lines 75-106), run over the records the
worker pulls, without cancellation: every record yields exactly one
JobDescriptionResult, a failure being tagged in the error field (the Go code
builds the result from the returned ("", map, err) triple). -/
def jobDescriptionWorkerRun
    (fetch : Job → Except GoError (String × List (String × String))) :
    List Job → List JobDescriptionResult
  | [] => []
  | j :: rest =>
    match fetch j with
    | .error e => ⟨j, "", [], some e⟩ :: jobDescriptionWorkerRun fetch rest
    | .ok (jd, jc) => ⟨j, jd, jc, none⟩ :: jobDescriptionWorkerRun fetch rest

/-- C4 counterexample: in the worker the pipeline actually uses
(GetJobDescription), a record whose fetch fails produces no failed result on
the output stream at all — the output for [j1 (fails), j2 (succeeds)] contains
only j2 — contradicting that the failure is wrapped into a failed
PipelineResult and emitted; the worker does continue with the next record. -/
theorem worker_failure_emission_counterexample :
    (getJobDescriptionWorker
        (fun j => if j.id = 1 then .error .descriptionNotFound else .ok ("desc", []))
        [⟨1, "a", "b", "", "c", "d"⟩, ⟨2, "e", "f", "", "g", "h"⟩]).map
          (fun r => r.job.id) = [2] := by decide

/-- C4 amended: a single record's failure never terminates a worker.  In
GetJobDescription — the worker the pipeline wires in — a failed record is
logged and skipped (no result is emitted for it) and the worker continues
with the remaining records; in the alternate jobDescriptionWorker a failed
record is emitted as a JobDescriptionResult tagged with the error and the
worker likewise continues, emitting exactly one result per record. -/
theorem worker_failure_isolation
    (fetch : Job → Except GoError (String × List (String × String)))
    (j : Job) (rest : List Job) :
    (∀ e, fetch j = .error e →
      getJobDescriptionWorker fetch (j :: rest) = getJobDescriptionWorker fetch rest) ∧
    (∀ jd jc, fetch j = .ok (jd, jc) →
      getJobDescriptionWorker fetch (j :: rest) =
        ⟨j, ⟨j.id, jd, jc⟩⟩ :: getJobDescriptionWorker fetch rest) ∧
    (∀ e, fetch j = .error e →
      jobDescriptionWorkerRun fetch (j :: rest) =
        ⟨j, "", [], some e⟩ :: jobDescriptionWorkerRun fetch rest) ∧
    (jobDescriptionWorkerRun fetch (j :: rest)).length = rest.length + 1 := by
  refine ⟨?_, ?_, ?_, ?_⟩
  · intro e he
    simp [getJobDescriptionWorker, he]
  · intro jd jc hok
    simp [getJobDescriptionWorker, hok]
  · intro e he
    simp [jobDescriptionWorkerRun, he]
  · have hlen : ∀ l, (jobDescriptionWorkerRun fetch l).length = l.length := by
      intro l
      induction l with
      | nil => rfl
      | cons a l ih =>
          cases hf : fetch a with
          | error e => simp [jobDescriptionWorkerRun, hf, ih]
          | ok v =>
              cases v with
              | mk jd jc => simp [jobDescriptionWorkerRun, hf, ih]
    simpa using hlen (j :: rest)

/-- Witness for the worker isolation theorem at a concrete failing record. -/
theorem worker_failure_isolation_witness :
    getJobDescriptionWorker (fun _ => .error .descriptionNotFound)
        [⟨1, "a", "b", "", "c", "d"⟩, ⟨2, "e", "f", "", "g", "h"⟩] =
      getJobDescriptionWorker (fun _ => .error .descriptionNotFound)
        [⟨2, "e", "f", "", "g", "h"⟩] ∧
    jobDescriptionWorkerRun (fun _ => .error .descriptionNotFound)
        [⟨1, "a", "b", "", "c", "d"⟩, ⟨2, "e", "f", "", "g", "h"⟩] =
      ⟨⟨1, "a", "b", "", "c", "d"⟩, "", [], some .descriptionNotFound⟩ ::
        jobDescriptionWorkerRun (fun _ => .error .descriptionNotFound)
          [⟨2, "e", "f", "", "g", "h"⟩] :=
  ⟨(worker_failure_isolation (fun _ => .error .descriptionNotFound)
      ⟨1, "a", "b", "", "c", "d"⟩ [⟨2, "e", "f", "", "g", "h"⟩]).1
        .descriptionNotFound rfl,
   (worker_failure_isolation (fun _ => .error .descriptionNotFound)
      ⟨1, "a", "b", "", "c", "d"⟩ [⟨2, "e", "f", "", "g", "h"⟩]).2.2.1
        .descriptionNotFound rfl⟩

/-- State of the GetJobDescription fan-out (src/unnamed/part_005 lines 28-70):
the producer goroutine of GetJobs with its remaining records and close flag,
the buffered jobChan, the number of workers still in their range loop, the
sync.WaitGroup counter, the buffered jobDescriptionChan with its close flag,
and what the orchestrator's range loop has consumed.  Channel buffers are
modelled unbounded; blocking shows up as the absence of an enabled step. -/
structure PoolState where
  pending : List Job
  producerDone : Bool
  inChan : List Job
  running : Nat
  wg : Nat
  outChan : List JobWithDescription
  outClosed : Bool
  consumed : List JobWithDescription
deriving Repr, DecidableEq

/-- What a worker sends for one record: nothing on a fetch error (the error is
only logged), the enriched pair on success. -/
def workerEmit (fetch : Job → Except GoError (String × List (String × String)))
    (j : Job) : List JobWithDescription :=
  match fetch j with
  | .error _ => []
  | .ok (jd, jc) => [⟨j, ⟨j.id, jd, jc⟩⟩]

/-- Interleaved small-step semantics of the pool: the producer emits a record
or closes jobChan after the last one; a worker in its range loop takes a
buffered record and processes it, or exits (wg.Done) once jobChan is closed
and drained; the closer goroutine closes jobDescriptionChan once wg.Wait
returns, i.e. when the counter is zero; the orchestrator consumes buffered
results. -/
inductive PoolStep (fetch : Job → Except GoError (String × List (String × String))) :
    PoolState → PoolState → Prop where
  | produce (s : PoolState) (j : Job) (rest : List Job) :
      s.pending = j :: rest →
      PoolStep fetch s { s with pending := rest, inChan := s.inChan ++ [j] }
  | closeInput (s : PoolState) :
      s.pending = [] → s.producerDone = false →
      PoolStep fetch s { s with producerDone := true }
  | workProcess (s : PoolState) (j : Job) (rest : List Job) :
      0 < s.running → s.inChan = j :: rest →
      PoolStep fetch s
        { s with inChan := rest, outChan := s.outChan ++ workerEmit fetch j }
  | workExit (s : PoolState) :
      0 < s.running → s.inChan = [] → s.producerDone = true →
      PoolStep fetch s { s with running := s.running - 1, wg := s.wg - 1 }
  | closeOutput (s : PoolState) :
      s.wg = 0 → s.outClosed = false →
      PoolStep fetch s { s with outClosed := true }
  | consume (s : PoolState) (r : JobWithDescription) (rest : List JobWithDescription) :
      s.outChan = r :: rest →
      PoolStep fetch s { s with outChan := rest, consumed := s.consumed ++ [r] }

/-- Initial state: GetJobs holds all records, jobChan open and empty, the 3
workers running, wg.Add(1) done 3 times, jobDescriptionChan open and empty. -/
def poolInit (jobs : List Job) : PoolState :=
  ⟨jobs, false, [], 3, 3, [], false, []⟩

/-- States an execution of the pool can reach from the initial state. -/
def PoolReachable (fetch : Job → Except GoError (String × List (String × String)))
    (jobs : List Job) (s : PoolState) : Prop :=
  Relation.ReflTransGen (PoolStep fetch) (poolInit jobs) s

/-- A state with no enabled step. -/
def PoolStuck (fetch : Job → Except GoError (String × List (String × String)))
    (s : PoolState) : Prop :=
  ¬∃ t, PoolStep fetch s t

/-- The pool invariant: the WaitGroup counter equals the number of running
workers, the output channel is closed only with the counter at zero, the
producer closes only after draining its records, and workers are all gone only
after jobChan is closed and drained. -/
def PoolInv (s : PoolState) : Prop :=
  s.wg = s.running ∧ (s.outClosed = true → s.wg = 0) ∧
  (s.producerDone = true → s.pending = []) ∧
  (s.running = 0 → s.inChan = [] ∧ s.producerDone = true)

/-- Every step preserves the pool invariant. -/
theorem poolInv_step
    (fetch : Job → Except GoError (String × List (String × String)))
    (s t : PoolState) (hinv : PoolInv s) (hstep : PoolStep fetch s t) : PoolInv t := by
  obtain ⟨h1, h2, h3, h4⟩ := hinv
  cases hstep with
  | produce j rest hp =>
      refine ⟨h1, h2, ?_, ?_⟩
      · intro hpd
        have := h3 hpd
        rw [hp] at this
        exact absurd this (by simp)
      · intro hr
        have := (h4 hr).2
        have hnil := h3 this
        rw [hp] at hnil
        exact absurd hnil (by simp)
  | closeInput hp hpd =>
      exact ⟨h1, h2, fun _ => hp, fun hr => ⟨(h4 hr).1, rfl⟩⟩
  | workProcess j rest hrun hin =>
      refine ⟨h1, h2, h3, ?_⟩
      · intro hr
        simp only at hr
        omega
  | workExit hrun hin hpd =>
      refine ⟨by simp [h1], ?_, h3, ?_⟩
      · intro ho
        have := h2 ho
        simp only
        omega
      · intro _
        exact ⟨hin, hpd⟩
  | closeOutput hwg ho =>
      exact ⟨h1, fun _ => hwg, h3, h4⟩
  | consume r rest hout =>
      exact ⟨h1, h2, h3, h4⟩

/-- The invariant holds in every reachable state. -/
theorem poolInv_reachable
    (fetch : Job → Except GoError (String × List (String × String)))
    (jobs : List Job) (s : PoolState) (h : PoolReachable fetch jobs s) : PoolInv s := by
  induction h with
  | refl =>
      refine ⟨rfl, ?_, ?_, ?_⟩ <;> (intro hx; simp [poolInit] at hx)
  | tail hr hstep ih => exact poolInv_step fetch _ _ ih hstep

/-- Termination measure of the pool. -/
def poolMeasure (s : PoolState) : Nat :=
  3 * s.pending.length + (if s.producerDone then 0 else 1) + 2 * s.inChan.length +
    2 * s.running + (if s.outClosed then 0 else 1) + s.outChan.length

/-- Every step strictly decreases the measure. -/
theorem poolMeasure_decreases
    (fetch : Job → Except GoError (String × List (String × String)))
    (s t : PoolState) (hstep : PoolStep fetch s t) : poolMeasure t < poolMeasure s := by
  cases hstep with
  | produce j rest hp =>
      simp only [poolMeasure, hp]
      simp
      omega
  | closeInput hp hpd =>
      simp only [poolMeasure, hpd]
      simp
  | workProcess j rest hrun hin =>
      have hemit : (workerEmit fetch j).length ≤ 1 := by
        rw [workerEmit]
        cases fetch j with
        | error e => simp
        | ok v => cases v with | mk jd jc => simp
      simp only [poolMeasure, hin]
      simp
      omega
  | workExit hrun hin hpd =>
      simp only [poolMeasure]
      simp
      omega
  | closeOutput hwg ho =>
      simp only [poolMeasure, ho]
      simp
  | consume r rest hout =>
      simp only [poolMeasure, hout]
      simp

/-- No execution of the pool runs forever. -/
theorem pool_no_infinite_run
    (fetch : Job → Except GoError (String × List (String × String)))
    (f : Nat → PoolState) (hstep : ∀ n, PoolStep fetch (f n) (f (n + 1))) : False := by
  have hdec : ∀ n, poolMeasure (f n) + n ≤ poolMeasure (f 0) := by
    intro n
    induction n with
    | zero => simp
    | succ n ih =>
        have := poolMeasure_decreases fetch (f n) (f (n + 1)) (hstep n)
        omega
  have := hdec (poolMeasure (f 0) + 1)
  omega

/-- A reachable state with no enabled step has everything drained and the
output channel closed. -/
theorem pool_stuck_closed
    (fetch : Job → Except GoError (String × List (String × String)))
    (jobs : List Job) (s : PoolState) (hr : PoolReachable fetch jobs s)
    (hs : PoolStuck fetch s) :
    s.outClosed = true ∧ s.outChan = [] ∧ s.running = 0 := by
  have hinv := poolInv_reachable fetch jobs s hr
  have hpend : s.pending = [] := by
    cases hp : s.pending with
    | nil => rfl
    | cons j rest => exact absurd ⟨_, PoolStep.produce s j rest hp⟩ hs
  have hpd : s.producerDone = true := by
    cases hpdc : s.producerDone with
    | true => rfl
    | false => exact absurd ⟨_, PoolStep.closeInput s hpend hpdc⟩ hs
  have hrun : s.running = 0 := by
    by_contra h
    have hpos : 0 < s.running := Nat.pos_of_ne_zero h
    cases hi : s.inChan with
    | nil => exact hs ⟨_, PoolStep.workExit s hpos hi hpd⟩
    | cons j rest => exact hs ⟨_, PoolStep.workProcess s j rest hpos hi⟩
  have hwg : s.wg = 0 := by rw [hinv.1, hrun]
  have hoc : s.outClosed = true := by
    cases ho : s.outClosed with
    | true => rfl
    | false => exact absurd ⟨_, PoolStep.closeOutput s hwg ho⟩ hs
  have hout : s.outChan = [] := by
    cases ho2 : s.outChan with
    | nil => rfl
    | cons r rest => exact absurd ⟨_, PoolStep.consume s r rest ho2⟩ hs
  exact ⟨hoc, hout, hrun⟩

/-- C7: in every execution of the pool, the combined output channel is closed
only after the completion counter has reached zero — i.e. after every worker
has exited; moreover every execution is finite and every reachable state in
which nothing can step any more has the output channel closed and drained, so
the consumer of the output stream is never left blocked on a live worker. -/
theorem pool_output_closed_after_workers
    (fetch : Job → Except GoError (String × List (String × String)))
    (jobs : List Job) :
    (∀ s, PoolReachable fetch jobs s → s.outClosed = true →
      s.wg = 0 ∧ s.running = 0) ∧
    (∀ s, PoolReachable fetch jobs s → PoolStuck fetch s →
      s.outClosed = true ∧ s.outChan = []) ∧
    (∀ f : Nat → PoolState, ¬∀ n, PoolStep fetch (f n) (f (n + 1))) := by
  refine ⟨?_, ?_, ?_⟩
  · intro s hr ho
    have hinv := poolInv_reachable fetch jobs s hr
    have hwg := hinv.2.1 ho
    exact ⟨hwg, by rw [← hinv.1]; exact hwg⟩
  · intro s hr hs
    have := pool_stuck_closed fetch jobs s hr hs
    exact ⟨this.1, this.2.1⟩
  · intro f h
    exact pool_no_infinite_run fetch f h

/-- Witness: the concrete zero-record execution — close input, three worker
exits, close output — reaches a closed-output state, and the theorem yields
that its counter and worker count are zero. -/
theorem pool_output_closed_after_workers_witness :
    PoolReachable (fun _ => Except.error GoError.descriptionNotFound) []
      ⟨[], true, [], 0, 0, [], true, []⟩ ∧
    (⟨[], true, [], 0, 0, [], true, []⟩ : PoolState).wg = 0 ∧
    (⟨[], true, [], 0, 0, [], true, []⟩ : PoolState).running = 0 := by
  have t1 : PoolStep (fun _ => Except.error GoError.descriptionNotFound)
      (poolInit []) ⟨[], true, [], 3, 3, [], false, []⟩ :=
    PoolStep.closeInput _ rfl rfl
  have t2 : PoolStep (fun _ => Except.error GoError.descriptionNotFound)
      (⟨[], true, [], 3, 3, [], false, []⟩ : PoolState)
      ⟨[], true, [], 2, 2, [], false, []⟩ :=
    PoolStep.workExit _ (by decide) rfl rfl
  have t3 : PoolStep (fun _ => Except.error GoError.descriptionNotFound)
      (⟨[], true, [], 2, 2, [], false, []⟩ : PoolState)
      ⟨[], true, [], 1, 1, [], false, []⟩ :=
    PoolStep.workExit _ (by decide) rfl rfl
  have t4 : PoolStep (fun _ => Except.error GoError.descriptionNotFound)
      (⟨[], true, [], 1, 1, [], false, []⟩ : PoolState)
      ⟨[], true, [], 0, 0, [], false, []⟩ :=
    PoolStep.workExit _ (by decide) rfl rfl
  have t5 : PoolStep (fun _ => Except.error GoError.descriptionNotFound)
      (⟨[], true, [], 0, 0, [], false, []⟩ : PoolState)
      ⟨[], true, [], 0, 0, [], true, []⟩ :=
    PoolStep.closeOutput _ rfl rfl
  have hchain : PoolReachable (fun _ => Except.error GoError.descriptionNotFound) []
      (⟨[], true, [], 0, 0, [], true, []⟩ : PoolState) :=
    ((((Relation.ReflTransGen.refl.tail t1).tail t2).tail t3).tail t4).tail t5
  have h := (pool_output_closed_after_workers
    (fun _ => Except.error GoError.descriptionNotFound) []).1 _ hchain rfl
  exact ⟨hchain, h.1, h.2⟩

/-- The Go map write jobMap[job.ID] = job of JobRepository.SaveJobs, on an
association-list model of the map (entries kept in key insertion order, which
fixes one of the iteration orders Go may present). -/
def jobAssocUpdate (m : List (Int × Job)) (j : Job) : List (Int × Job) :=
  if m.any (fun p => p.1 == j.id) then
    m.map (fun p => if p.1 == j.id then (p.1, j) else p)
  else m ++ [(j.id, j)]

/-- Lookup in the association-list model of the Go map. -/
def assocGet (m : List (Int × Job)) (id : Int) : Option Job :=
  match m with
  | [] => none
  | p :: ps => if p.1 = id then some p.2 else assocGet ps id

/-- The jobMap built by JobRepository.SaveJobs lines 24-27. -/
def jobMapOf (jobs : List Job) : List (Int × Job) :=
  jobs.foldl jobAssocUpdate []

/-- The uniqueJobs slice of JobRepository.SaveJobs lines 29-32: the values of
the map. -/
def dedupJobs (jobs : List Job) : List Job :=
  (jobMapOf jobs).map (fun p => p.2)

/-- The last record in the list carrying the given identifier. -/
def lastWithID (jobs : List Job) (id : Int) : Option Job :=
  match jobs with
  | [] => none
  | j :: rest =>
    match lastWithID rest id with
    | some r => some r
    | none => if j.id = id then some j else none

/-- One row of the INSERT ... ON CONFLICT (id) DO UPDATE statement applied to
the store: the row replaces whatever was stored under its id. -/
def upsertJob (db : Int → Option Job) (j : Job) : Int → Option Job :=
  fun i => if i = j.id then some j else db i

/-- JobRepository.SaveJobs (internal/repo/job.go lines 18-68) against a store
modelled as a partial map; `execErr` injects the db.Exec failure.  The result
carries the new store and the number of statements executed. -/
def saveJobs (db : Int → Option Job) (execErr : Option String) (jobs : List Job) :
    Except String ((Int → Option Job) × Nat) :=
  if jobs.isEmpty then .ok (db, 0)
  else
    match execErr with
    | some e => .error ("error inserting jobs: " ++ e)
    | none => .ok ((dedupJobs jobs).foldl upsertJob db, 1)

/-- Mapping the update function over entries leaves lookups at other keys
unchanged. -/
theorem assocGet_map_other (j : Job) (id : Int) (hne : j.id ≠ id) :
    ∀ m : List (Int × Job),
      assocGet (m.map (fun p => if p.1 == j.id then (p.1, j) else p)) id =
        assocGet m id := by
  intro m
  induction m with
  | nil => rfl
  | cons p ps ih =>
      rw [List.map_cons]
      by_cases hb : p.1 = j.id
      · rw [show (if (p.1 == j.id) = true then (p.1, j) else p) = (p.1, j) by
          simp [hb]]
        rw [assocGet, assocGet]
        by_cases hid : p.1 = id
        · exact absurd (hb.symm.trans hid) hne
        · rw [if_neg hid, if_neg hid, ih]
      · rw [show (if (p.1 == j.id) = true then (p.1, j) else p) = p by simp [hb]]
        rw [assocGet, assocGet]
        by_cases hid : p.1 = id
        · rw [if_pos hid, if_pos hid]
        · rw [if_neg hid, if_neg hid, ih]

/-- Mapping the update function rebinds the written key to the new record. -/
theorem assocGet_map_self (j : Job) :
    ∀ m : List (Int × Job), (m.any (fun p => p.1 == j.id)) = true →
      assocGet (m.map (fun p => if p.1 == j.id then (p.1, j) else p)) j.id =
        some j := by
  intro m
  induction m with
  | nil => intro h; simp at h
  | cons p ps ih =>
      intro h
      rw [List.map_cons]
      by_cases hb : p.1 = j.id
      · rw [show (if (p.1 == j.id) = true then (p.1, j) else p) = (p.1, j) by
          simp [hb]]
        rw [assocGet, if_pos hb]
      · rw [show (if (p.1 == j.id) = true then (p.1, j) else p) = p by simp [hb]]
        rw [assocGet, if_neg hb]
        refine ih ?_
        rcases List.any_eq_true.mp h with ⟨q, hq, hqb⟩
        rcases List.mem_cons.mp hq with hh | hh
        · subst hh; exact absurd (by simpa using hqb) hb
        · exact List.any_eq_true.mpr ⟨q, hh, hqb⟩

/-- Appending a fresh entry binds its key and leaves the others unchanged. -/
theorem assocGet_append_new (j : Job) (id : Int) :
    ∀ m : List (Int × Job), (∀ p ∈ m, p.1 ≠ j.id) →
      assocGet (m ++ [(j.id, j)]) id =
        if j.id = id then some j else assocGet m id := by
  intro m
  induction m with
  | nil =>
      intro _
      by_cases hje : j.id = id
      · simp [assocGet, hje]
      · simp [assocGet, hje]
  | cons p ps ih =>
      intro hall
      rw [List.cons_append, assocGet]
      by_cases hid : p.1 = id
      · have hje : j.id ≠ id := fun hx => (hall p (by simp)) (hid.trans hx.symm)
        rw [if_pos hid, if_neg hje, assocGet, if_pos hid]
      · rw [if_neg hid, ih (fun q hq => hall q (by simp [hq]))]
        by_cases hje : j.id = id
        · rw [if_pos hje, if_pos hje]
        · rw [if_neg hje, if_neg hje, assocGet, if_neg hid]

/-- Lookup after a Go-map write: the written key now maps to the new record,
other keys are unchanged. -/
theorem assocGet_update (m : List (Int × Job)) (j : Job) (id : Int) :
    assocGet (jobAssocUpdate m j) id =
      if j.id = id then some j else assocGet m id := by
  rw [jobAssocUpdate]
  by_cases hany : (m.any (fun p => p.1 == j.id)) = true
  · rw [if_pos hany]
    by_cases hje : j.id = id
    · subst hje
      rw [if_pos rfl]
      exact assocGet_map_self j m hany
    · rw [if_neg hje]
      exact assocGet_map_other j id hje m
  · rw [if_neg hany]
    have hall : ∀ p ∈ m, p.1 ≠ j.id := by
      intro p hp hpe
      exact hany (List.any_eq_true.mpr ⟨p, hp, by simpa using hpe⟩)
    exact assocGet_append_new j id m hall

/-- Folding the Go-map writes over the batch: the final binding of a key is
its last occurrence in the batch, anything else is what the accumulator had. -/
theorem assocGet_foldl (id : Int) :
    ∀ (jobs : List Job) (m : List (Int × Job)),
      assocGet (jobs.foldl jobAssocUpdate m) id =
        match lastWithID jobs id with
        | some r => some r
        | none => assocGet m id := by
  intro jobs
  induction jobs with
  | nil => intro m; rfl
  | cons j rest ih =>
      intro m
      rw [List.foldl_cons, ih (jobAssocUpdate m j)]
      rw [lastWithID]
      cases hrest : lastWithID rest id with
      | some r => rfl
      | none =>
          rw [assocGet_update]
          by_cases hje : j.id = id
          · simp [hje]
          · simp [hje]

/-- Entries of the map always satisfy key = value.ID. -/
theorem jobMap_pairs (jobs : List Job) :
    ∀ m : List (Int × Job), (∀ p ∈ m, p.1 = p.2.id) →
      ∀ p ∈ jobs.foldl jobAssocUpdate m, p.1 = p.2.id := by
  induction jobs with
  | nil => intro m h; exact h
  | cons j rest ih =>
      intro m h
      rw [List.foldl_cons]
      refine ih (jobAssocUpdate m j) ?_
      intro p hp
      rw [jobAssocUpdate] at hp
      by_cases hany : m.any (fun q => q.1 == j.id) = true
      · rw [if_pos hany] at hp
        rcases List.mem_map.mp hp with ⟨q, hq, hqe⟩
        by_cases hb : q.1 = j.id
        · rw [show (if (q.1 == j.id) = true then (q.1, j) else q) = (q.1, j) by
            simp [hb]] at hqe
          rw [← hqe]
          exact hb
        · rw [show (if (q.1 == j.id) = true then (q.1, j) else q) = q by
            simp [hb]] at hqe
          rw [← hqe]
          exact h q hq
      · rw [if_neg hany] at hp
        rcases List.mem_append.mp hp with hq | hq
        · exact h p hq
        · rcases List.mem_singleton.mp hq with rfl
          rfl

/-- The keys of the map are pairwise distinct. -/
theorem jobMap_keys_nodup (jobs : List Job) :
    ∀ m : List (Int × Job), (m.map (fun p => p.1)).Nodup →
      ((jobs.foldl jobAssocUpdate m).map (fun p => p.1)).Nodup := by
  induction jobs with
  | nil => intro m h; exact h
  | cons j rest ih =>
      intro m h
      rw [List.foldl_cons]
      refine ih (jobAssocUpdate m j) ?_
      rw [jobAssocUpdate]
      by_cases hany : m.any (fun q => q.1 == j.id) = true
      · rw [if_pos hany]
        have hmap : (m.map (fun p => if p.1 == j.id then (p.1, j) else p)).map
            (fun p => p.1) = m.map (fun p => p.1) := by
          rw [List.map_map]
          refine List.map_congr_left ?_
          intro p _
          by_cases hb : p.1 = j.id
          · simp [hb]
          · simp [hb]
        rw [hmap]
        exact h
      · rw [if_neg hany]
        rw [List.map_append]
        have hnotin : j.id ∉ m.map (fun p => p.1) := by
          intro hx
          rcases List.mem_map.mp hx with ⟨q, hq, hqe⟩
          exact hany (List.any_eq_true.mpr ⟨q, hq, by simpa using hqe⟩)
        simp [List.nodup_append, h, hnotin]

/-- A found key is present among the keys. -/
theorem assocGet_mem_keys (id : Int) (j : Job) :
    ∀ m : List (Int × Job), assocGet m id = some j → id ∈ m.map (fun p => p.1) := by
  intro m
  induction m with
  | nil => intro h; exact absurd h (by simp [assocGet])
  | cons p ps ih =>
      intro h
      rw [assocGet] at h
      by_cases hid : p.1 = id
      · simp [hid]
      · rw [if_neg hid] at h
        simp [ih h]

/-- With distinct keys and the key/value invariant, a present id owns exactly
one value of the map. -/
theorem values_countP_eq_one (id : Int) :
    ∀ m : List (Int × Job), ((m.map (fun p => p.1)).Nodup) →
      (∀ p ∈ m, p.1 = p.2.id) → id ∈ m.map (fun p => p.1) →
      (m.map (fun p => p.2)).countP (fun v => decide (v.id = id)) = 1 := by
  intro m
  induction m with
  | nil => intro _ _ h; exact absurd h (by simp)
  | cons p ps ih =>
      intro hnodup hpairs hmem
      have hnodup2 : ((p :: ps).map (fun p => p.1)).Nodup = (p.1 :: ps.map
        (fun p => p.1)).Nodup := rfl
      have hhead : p.1 ∉ ps.map (fun q => q.1) := by
        have := hnodup
        rw [List.map_cons, List.nodup_cons] at this
        exact this.1
      have htail : (ps.map (fun q => q.1)).Nodup := by
        have := hnodup
        rw [List.map_cons, List.nodup_cons] at this
        exact this.2
      rw [List.map_cons, List.countP_cons]
      by_cases hid : p.1 = id
      · have hzero : (ps.map (fun q => q.2)).countP (fun v => decide (v.id = id)) = 0 := by
          rw [List.countP_eq_zero]
          intro v hv
          rcases List.mem_map.mp hv with ⟨q, hq, hqe⟩
          simp only [decide_eq_true_eq]
          intro hve
          refine hhead ?_
          rw [hid]
          refine List.mem_map.mpr ⟨q, hq, ?_⟩
          rw [hpairs q (by simp [hq]), hqe, hve]
        rw [hzero]
        have : p.2.id = id := by rw [← hpairs p (by simp), hid]
        simp [this]
      · have hmem2 : id ∈ ps.map (fun q => q.1) := by
          rw [List.map_cons] at hmem
          rcases List.mem_cons.mp hmem with h | h
          · exact absurd h.symm hid
          · exact h
        have hne : p.2.id ≠ id := by
          rw [← hpairs p (by simp)]
          exact hid
        rw [ih htail (fun q hq => hpairs q (by simp [hq])) hmem2]
        simp [hne]

/-- Folding the row upserts of the single INSERT statement over the
deduplicated batch: a key bound in the map receives that binding, other keys
keep their stored record. -/
theorem foldl_upsertJob (id : Int) :
    ∀ (m : List (Int × Job)) (db : Int → Option Job),
      (∀ p ∈ m, p.1 = p.2.id) → ((m.map (fun p => p.1)).Nodup) →
      ((m.map (fun p => p.2)).foldl upsertJob db) id =
        match assocGet m id with
        | some j => some j
        | none => db id := by
  intro m
  induction m with
  | nil => intro db _ _; rfl
  | cons p ps ih =>
      intro db hpairs hnodup
      have hhead : p.1 ∉ ps.map (fun q => q.1) := by
        have := hnodup
        rw [List.map_cons, List.nodup_cons] at this
        exact this.1
      have htail : (ps.map (fun q => q.1)).Nodup := by
        have := hnodup
        rw [List.map_cons, List.nodup_cons] at this
        exact this.2
      rw [List.map_cons, List.foldl_cons,
        ih (upsertJob db p.2) (fun q hq => hpairs q (by simp [hq])) htail]
      by_cases hid : p.1 = id
      · have hnone : assocGet ps id = none := by
          cases hget : assocGet ps id with
          | none => rfl
          | some r =>
              exact absurd (hid ▸ assocGet_mem_keys id r ps hget) hhead
        rw [hnone, assocGet, if_pos hid]
        have : id = p.2.id := by rw [← hpairs p (by simp), hid]
        simp [upsertJob, this]

      · rw [assocGet, if_neg hid]
        cases hget : assocGet ps id with
        | some r => rfl
        | none =>
            have : id ≠ p.2.id := by
              rw [← hpairs p (by simp)]
              exact fun hx => hid hx.symm
            simp [upsertJob, this]

/-- C9: SaveJobs deduplicates the batch by identifier with the last occurrence
winning: whenever an identifier occurs in the batch, exactly one record with
that identifier is persisted, it is the last occurrence (in particular the
later title is the one stored), and the save succeeds as an upsert rather
than erroring. -/
theorem saveJobs_dedup_last_wins (db : Int → Option Job) (jobs : List Job)
    (id : Int) (j : Job) (hj : lastWithID jobs id = some j) :
    ((dedupJobs jobs).countP (fun v => decide (v.id = id))) = 1 ∧
    ∃ db2, saveJobs db none jobs = .ok (db2, 1) ∧ db2 id = some j := by
  have hne : jobs.isEmpty = false := by
    cases jobs with
    | nil => exact absurd hj (by simp [lastWithID])
    | cons a l => rfl
  have hget : assocGet (jobMapOf jobs) id = some j := by
    rw [jobMapOf, assocGet_foldl, hj]
  have hpairs : ∀ p ∈ jobMapOf jobs, p.1 = p.2.id :=
    jobMap_pairs jobs [] (by simp)
  have hnodup : ((jobMapOf jobs).map (fun p => p.1)).Nodup :=
    jobMap_keys_nodup jobs [] (by simp)
  have hmem : id ∈ (jobMapOf jobs).map (fun p => p.1) :=
    assocGet_mem_keys id j (jobMapOf jobs) hget
  refine ⟨values_countP_eq_one id (jobMapOf jobs) hnodup hpairs hmem, ?_⟩
  refine ⟨(dedupJobs jobs).foldl upsertJob db, ?_, ?_⟩
  · rw [saveJobs, hne]
    rfl
  · rw [dedupJobs, foldl_upsertJob id (jobMapOf jobs) db hpairs hnodup, hget]

/-- Witness: the same identifier twice with different titles — the later
title is stored, exactly one record for the identifier is persisted. -/
theorem saveJobs_dedup_last_wins_witness :
    lastWithID [⟨1, "A", "c", "", "l", "u"⟩, ⟨1, "B", "c", "", "l", "u"⟩] 1 =
      some ⟨1, "B", "c", "", "l", "u"⟩ ∧
    ((dedupJobs [⟨1, "A", "c", "", "l", "u"⟩, ⟨1, "B", "c", "", "l", "u"⟩]).countP
      (fun v => decide (v.id = 1))) = 1 ∧
    ∃ db2, saveJobs (fun _ => none) none
        [⟨1, "A", "c", "", "l", "u"⟩, ⟨1, "B", "c", "", "l", "u"⟩] = .ok (db2, 1) ∧
      db2 1 = some ⟨1, "B", "c", "", "l", "u"⟩ :=
  ⟨by decide,
   (saveJobs_dedup_last_wins (fun _ => none)
     [⟨1, "A", "c", "", "l", "u"⟩, ⟨1, "B", "c", "", "l", "u"⟩] 1
     ⟨1, "B", "c", "", "l", "u"⟩ (by decide)).1,
   (saveJobs_dedup_last_wins (fun _ => none)
     [⟨1, "A", "c", "", "l", "u"⟩, ⟨1, "B", "c", "", "l", "u"⟩] 1
     ⟨1, "B", "c", "", "l", "u"⟩ (by decide)).2⟩

/-- One row of the job-description INSERT ... ON CONFLICT (job_id) DO UPDATE. -/
def upsertDesc (db : Int → Option JobDescription) (d : JobDescription) :
    Int → Option JobDescription :=
  fun i => if i = d.jobID then some d else db i

/-- JobDescriptionRepository.SaveJobDescriptions
(internal/repo/job-description.go lines 26-61); note this one does not
deduplicate its batch. -/
def saveJobDescriptions (db : Int → Option JobDescription) (execErr : Option String)
    (descs : List JobDescription) :
    Except String ((Int → Option JobDescription) × Nat) :=
  if descs.isEmpty then .ok (db, 0)
  else
    match execErr with
    | some e => .error ("error saving job descriptions: " ++ e)
    | none => .ok (descs.foldl upsertDesc db, 1)

/-- The tail of JobPipeline.ProcessJobsStreaming
(internal/pipeline/job_pipeline.go lines 51-67): accumulate the consumed
results into the two parallel slices, then one SaveJobs call and one
SaveJobDescriptions call; either failure aborts the run with a wrapped error.
Returns the two stores and the total number of statements executed. -/
def processJobsStreaming (jobDB : Int → Option Job)
    (descDB : Int → Option JobDescription) (jobErr descErr : Option String)
    (results : List JobWithDescription) :
    Except String ((Int → Option Job) × (Int → Option JobDescription) × Nat) :=
  let allJobs := results.map (fun r => r.job)
  let allJobDescriptions := results.map (fun r => r.jobDescription)
  match saveJobs jobDB jobErr allJobs with
  | .error e => .error ("failed to save jobs to database: " ++ e)
  | .ok (jdb, n1) =>
    match saveJobDescriptions descDB descErr allJobDescriptions with
    | .error e => .error ("failed to save job descriptions: " ++ e)
    | .ok (ddb, n2) => .ok (jdb, ddb, n1 + n2)

/-- C10: both batch persistence operations return nil on an empty batch
without executing any statement — even when the database would fail — and
consequently a pipeline run with zero successful results completes without
error and without touching either store. -/
theorem empty_batch_no_persistence (jobDB : Int → Option Job)
    (descDB : Int → Option JobDescription) (jobErr descErr : Option String) :
    saveJobs jobDB jobErr [] = .ok (jobDB, 0) ∧
    saveJobDescriptions descDB descErr [] = .ok (descDB, 0) ∧
    processJobsStreaming jobDB descDB jobErr descErr [] = .ok (jobDB, descDB, 0) := by
  exact ⟨rfl, rfl, rfl⟩

end JobsScraper
